import Mathlib

/-!
Shallow embedding of the metagame analysis core (`src/mtgtop8/analyzer.py` of
`aleserena/metagameAnalyzer`) together with proofs about its behaviour.

Python machine values are modelled as follows: `int` quantities and ids as `Nat`
(they are non-negative in this data model), float scores as `ℚ` (all weights are
exact halves, so the Python float arithmetic performed by the analyzer is exact
and agrees with `ℚ`), strings as `String`, dicts built by accumulation loops as
association lists in key-insertion order (or, equivalently, as the list of keys
in first-occurrence order paired with the accumulated value for each key),
and Python's stable `sorted` as `List.insertionSort` with the corresponding
total preorder (insertion sort is stable, hence produces the same list).
-/

namespace Mtg

/-- One tournament deck entry (`models.Deck`). -/
structure Deck where
  deck_id : Nat
  event_id : Nat
  format_id : String
  name : String
  player : String
  event_name : String
  date : String
  rank : String
  player_count : Nat
  mainboard : List (Nat × String)
  sideboard : List (Nat × String)
  commanders : List String
  archetype : Option String
deriving DecidableEq

/-- `RANK_WEIGHTS`: rank to weight for placement-weighted stats. -/
def RANK_WEIGHTS : List (String × ℚ) :=
  [("1", 8), ("2", 6), ("3-4", 4), ("5-8", 2), ("9-16", 1), ("17-32", 1/2)]

/-- `_get_weight`: weight of a rank, default 1.0. -/
def get_weight (rank : String) : ℚ :=
  (RANK_WEIGHTS.lookup rank).getD 1

/-- Python's `round(x, 1)` on the exact values produced by the analyzer. -/
def round1 (x : ℚ) : ℚ :=
  ((round (10 * x) : ℤ) : ℚ) / 10

/-- The distinct elements of a list in first-occurrence order: the key set of a
Python dict (or a `set`) filled by iterating over the list. -/
def firstOccur {α : Type} [DecidableEq α] : List α → List α
  | [] => []
  | a :: l => a :: (firstOccur l).filter (fun x => decide (x ≠ a))

theorem mem_firstOccur {α : Type} [DecidableEq α] {x : α} :
    ∀ {l : List α}, x ∈ firstOccur l ↔ x ∈ l := by
  intro l
  induction l with
  | nil => simp [firstOccur]
  | cons a l ih =>
    by_cases hx : x = a
    · simp [firstOccur, hx]
    · simp [firstOccur, hx, ih]

theorem nodup_firstOccur {α : Type} [DecidableEq α] :
    ∀ (l : List α), (firstOccur l).Nodup := by
  intro l
  induction l with
  | nil => simp [firstOccur]
  | cons a l ih =>
    refine List.Pairwise.cons ?_ (ih.filter _)
    intro b hb
    have := List.of_mem_filter hb
    intro hab
    simp [hab.symm] at this

/-! ### Distribution builders (`commander_distribution`, `archetype_distribution`) -/

/-- One output row of a distribution builder. -/
structure DistEntry where
  key : String
  count : ℚ
  pct : ℚ
deriving DecidableEq

/-- `scores[key] = scores.get(key, 0.0) + w` on an insertion-ordered dict. -/
def bumpScore (m : List (String × ℚ)) (k : String) (w : ℚ) : List (String × ℚ) :=
  match m with
  | [] => [(k, w)]
  | (k2, v) :: rest =>
    if k2 = k then (k2, v + w) :: rest else (k2, v) :: bumpScore rest k w

/-- The `scores` dict accumulated over the decks. -/
def dist_scores (keyOf : Deck → String) (placement_weighted : Bool)
    (decks : List Deck) : List (String × ℚ) :=
  decks.foldl
    (fun acc d =>
      bumpScore acc (keyOf d) (if placement_weighted then get_weight d.rank else 1))
    []

/-- `total = sum(scores.values()) or 1`. -/
def dist_total (scores : List (String × ℚ)) : ℚ :=
  if (scores.map Prod.snd).sum = 0 then 1 else (scores.map Prod.snd).sum

/-- Shared body of the two distribution builders: sort the score dict by
descending score (stably) and emit rounded counts and percentages. -/
def distribution_of (keyOf : Deck → String) (decks : List Deck)
    (placement_weighted : Bool) : List DistEntry :=
  ((dist_scores keyOf placement_weighted decks).insertionSort
      (fun a b => b.2 ≤ a.2)).map
    (fun kn => ⟨kn.1, round1 kn.2,
      round1 (100 * kn.2 / dist_total (dist_scores keyOf placement_weighted decks))⟩)

/-- Commander-combo key: sorted commanders joined by `" / "`, else sentinel. -/
def commanderKey (d : Deck) : String :=
  if d.commanders = [] then "(no commander)"
  else String.intercalate " / " (d.commanders.insertionSort (· ≤ ·))

/-- Archetype key: the archetype or the sentinel `"(unknown)"`. -/
def archetypeKey (d : Deck) : String :=
  d.archetype.getD "(unknown)"

/-- `commander_distribution`. -/
def commander_distribution (decks : List Deck) (placement_weighted : Bool) :
    List DistEntry :=
  distribution_of commanderKey decks placement_weighted

/-- `archetype_distribution`. -/
def archetype_distribution (decks : List Deck) (placement_weighted : Bool) :
    List DistEntry :=
  distribution_of archetypeKey decks placement_weighted

/-! Basic facts about the weights and the score dict. -/

theorem get_weight_pos (rank : String) : 0 < get_weight rank := by
  unfold get_weight RANK_WEIGHTS
  simp only [List.lookup]
  repeat' split
  all_goals norm_num

theorem sum_bumpScore (m : List (String × ℚ)) (k : String) (w : ℚ) :
    ((bumpScore m k w).map Prod.snd).sum = (m.map Prod.snd).sum + w := by
  induction m with
  | nil => simp [bumpScore]
  | cons p rest ih =>
    obtain ⟨k2, v⟩ := p
    by_cases h : k2 = k
    · simp [bumpScore, h]
      ring
    · simp [bumpScore, h, ih]
      ring

/-- The score dict totals exactly the weights of the decks. -/
theorem sum_dist_scores (keyOf : Deck → String) (pw : Bool) (decks : List Deck) :
    ((dist_scores keyOf pw decks).map Prod.snd).sum
      = (decks.map (fun d => if pw then get_weight d.rank else 1)).sum := by
  suffices h : ∀ (l : List Deck) (m : List (String × ℚ)),
      ((l.foldl (fun acc d =>
          bumpScore acc (keyOf d) (if pw then get_weight d.rank else 1)) m).map
        Prod.snd).sum
        = (m.map Prod.snd).sum + (l.map (fun d => if pw then get_weight d.rank else 1)).sum by
    simpa using h decks []
  intro l
  induction l with
  | nil => simp
  | cons d l ih =>
    intro m
    simp only [List.foldl_cons, List.map_cons, List.sum_cons]
    rw [ih, sum_bumpScore]
    ring

/-! ### Rounding bounds -/

theorem abs_round1_sub (x : ℚ) : |round1 x - x| ≤ 1 / 20 := by
  have h : |10 * x - ((round (10 * x) : ℤ) : ℚ)| ≤ 1 / 2 := abs_sub_round (10 * x)
  rw [abs_sub_comm] at h
  have hrw : round1 x - x = (((round (10 * x) : ℤ) : ℚ) - 10 * x) / 10 := by
    unfold round1; ring
  rw [hrw, abs_div, abs_of_pos (by norm_num : (0 : ℚ) < 10)]
  linarith

theorem abs_sum_round1_sub (l : List ℚ) :
    |(l.map round1).sum - l.sum| ≤ (l.length : ℚ) / 20 := by
  induction l with
  | nil => simp
  | cons a l ih =>
    have h1 := abs_round1_sub a
    have h2 : |(round1 a + (l.map round1).sum) - (a + l.sum)|
        ≤ |round1 a - a| + |(l.map round1).sum - l.sum| := by
      have := abs_add (round1 a - a) ((l.map round1).sum - l.sum)
      have he : (round1 a + (l.map round1).sum) - (a + l.sum)
          = (round1 a - a) + ((l.map round1).sum - l.sum) := by ring
      rw [he]
      exact this
    simp only [List.map_cons, List.sum_cons, List.length_cons]
    push_cast
    calc |(round1 a + (l.map round1).sum) - (a + l.sum)|
        ≤ |round1 a - a| + |(l.map round1).sum - l.sum| := h2
      _ ≤ 1 / 20 + (l.length : ℚ) / 20 := by linarith
      _ = ((l.length : ℚ) + 1) / 20 := by ring

theorem list_sum_pos (l : List ℚ) (h : ∀ x ∈ l, 0 < x) (hne : l ≠ []) :
    0 < l.sum := by
  cases l with
  | nil => exact absurd rfl hne
  | cons a l =>
    have ha : 0 < a := h a (List.mem_cons_self a l)
    have hl : 0 ≤ l.sum :=
      List.sum_nonneg (fun x hx => le_of_lt (h x (List.mem_cons_of_mem a hx)))
    simpa using add_pos_of_pos_of_nonneg ha hl

/-! ### C3: percentage sums of the distribution builders -/

set_option maxHeartbeats 1000000 in
theorem distribution_pct_sum (keyOf : Deck → String) (decks : List Deck)
    (pw : Bool) (h : decks ≠ []) :
    |((distribution_of keyOf decks pw).map DistEntry.pct).sum - 100|
      ≤ ((distribution_of keyOf decks pw).length : ℚ) / 20 := by
  have hs : 0 < ((dist_scores keyOf pw decks).map Prod.snd).sum := by
    rw [sum_dist_scores]
    apply list_sum_pos
    · intro x hx
      obtain ⟨d, _, hd⟩ := List.mem_map.1 hx
      subst hd
      cases pw
      · norm_num
      · simpa using get_weight_pos d.rank
    · simpa using h
  have htot : dist_total (dist_scores keyOf pw decks)
      = ((dist_scores keyOf pw decks).map Prod.snd).sum := by
    unfold dist_total
    rw [if_neg (ne_of_gt hs)]
  have hperm : List.Perm
      ((dist_scores keyOf pw decks).insertionSort (fun a b => b.2 ≤ a.2))
      (dist_scores keyOf pw decks) :=
    List.perm_insertionSort _ _
  have hsum_ps :
      (((dist_scores keyOf pw decks).insertionSort (fun a b => b.2 ≤ a.2)).map
          Prod.snd).sum
        = ((dist_scores keyOf pw decks).map Prod.snd).sum :=
    (hperm.map Prod.snd).sum_eq
  have hpct : (distribution_of keyOf decks pw).map DistEntry.pct
      = (((dist_scores keyOf pw decks).insertionSort (fun a b => b.2 ≤ a.2)).map
          (fun kn => 100 * kn.2 / dist_total (dist_scores keyOf pw decks))).map
        round1 := by
    unfold distribution_of
    rw [List.map_map, List.map_map]
    rfl
  have hraw :
      ((((dist_scores keyOf pw decks).insertionSort (fun a b => b.2 ≤ a.2)).map
          (fun kn => 100 * kn.2 / dist_total (dist_scores keyOf pw decks)))).sum
        = 100 := by
    rw [htot]
    have he : (fun kn : String × ℚ =>
          100 * kn.2 / ((dist_scores keyOf pw decks).map Prod.snd).sum)
        = fun kn : String × ℚ =>
          kn.2 * (100 / ((dist_scores keyOf pw decks).map Prod.snd).sum) := by
      funext kn
      ring
    rw [he]
    have hmm :
        (((dist_scores keyOf pw decks).insertionSort (fun a b => b.2 ≤ a.2)).map
            fun kn : String × ℚ =>
              kn.2 * (100 / ((dist_scores keyOf pw decks).map Prod.snd).sum)).sum
          = ((((dist_scores keyOf pw decks).insertionSort
                (fun a b => b.2 ≤ a.2)).map Prod.snd).map
              fun v => v * (100 / ((dist_scores keyOf pw decks).map Prod.snd).sum)).sum := by
      rw [List.map_map]
      rfl
    rw [hmm, List.sum_map_mul_right, List.map_id', hsum_ps]
    field_simp
  have hlen : ((distribution_of keyOf decks pw).length : ℚ)
      = ((((dist_scores keyOf pw decks).insertionSort (fun a b => b.2 ≤ a.2)).map
            (fun kn => 100 * kn.2 / dist_total (dist_scores keyOf pw decks))).length : ℚ) := by
    unfold distribution_of
    simp
  have hb := abs_sum_round1_sub
    (((dist_scores keyOf pw decks).insertionSort (fun a b => b.2 ≤ a.2)).map
      (fun kn => 100 * kn.2 / dist_total (dist_scores keyOf pw decks)))
  rw [hraw] at hb
  rw [hpct, hlen]
  exact hb

theorem dist_total_pos (keyOf : Deck → String) (pw : Bool)
    (decks : List Deck) : 0 < dist_total (dist_scores keyOf pw decks) := by
  unfold dist_total
  split_ifs with h0
  · norm_num
  · refine lt_of_le_of_ne ?_ (Ne.symm h0)
    rw [sum_dist_scores]
    apply List.sum_nonneg
    intro x hx
    obtain ⟨d, _, hd⟩ := List.mem_map.1 hx
    subst hd
    cases pw
    · norm_num
    · exact le_of_lt (get_weight_pos d.rank)

/-- C3 (amended): for a non-empty deck list the percentages of
`commander_distribution` and `archetype_distribution` sum to 100 up to the
rounding of each entry (at most 1/20 per entry, so within `k/20` for `k`
entries); for the empty deck list both results are empty; and the guarded
percentage denominator is always positive, so the division-by-zero branch is
unreachable. -/
theorem distributions_pct_sum_spec (decks : List Deck) (pw : Bool) :
    (decks ≠ [] →
      |((commander_distribution decks pw).map DistEntry.pct).sum - 100|
          ≤ ((commander_distribution decks pw).length : ℚ) / 20
      ∧ |((archetype_distribution decks pw).map DistEntry.pct).sum - 100|
          ≤ ((archetype_distribution decks pw).length : ℚ) / 20)
    ∧ commander_distribution [] pw = []
    ∧ archetype_distribution [] pw = []
    ∧ 0 < dist_total (dist_scores commanderKey pw decks)
    ∧ 0 < dist_total (dist_scores archetypeKey pw decks) := by
  exact ⟨fun h => ⟨distribution_pct_sum commanderKey decks pw h,
    distribution_pct_sum archetypeKey decks pw h⟩, rfl, rfl,
    dist_total_pos commanderKey pw decks, dist_total_pos archetypeKey pw decks⟩

/-- A deck with only a commander set, used to exercise the distributions. -/
def mkCmdrDeck (i : Nat) (cmdr : String) : Deck :=
  ⟨i, 0, "EDH", "deck", "p", "e", "01/01/25", "", 0, [], [], [cmdr], none⟩

/-- Six decks with six distinct commanders: each percentage rounds
`100/6 = 16.66...` up to `16.7`, so the percentages sum to `100.2`. -/
def cexC3decks : List Deck :=
  [mkCmdrDeck 1 "A", mkCmdrDeck 2 "B", mkCmdrDeck 3 "Cq", mkCmdrDeck 4 "D",
   mkCmdrDeck 5 "E", mkCmdrDeck 6 "F"]

theorem cexC3_round : round1 (100 * (1:ℚ) / 6) = 167/10 := by
  have h1 : (10:ℚ) * (100 * 1 / 6) = 500/3 := by norm_num
  have h2 : (500:ℚ)/3 + 1/2 = 1003/6 := by norm_num
  have h3 : (⌊(1003:ℚ)/6⌋ : ℤ) = 167 := by
    rw [Int.floor_eq_iff]
    constructor <;> norm_num
  unfold round1
  rw [h1, round_eq, h2, h3]
  norm_num

/-- On six decks with six distinct commanders the percentages reported by
`commander_distribution` sum to `100.2`, not to `100 ± 0.1`. -/
theorem distribution_pct_sum_counterexample :
    ¬ (|((commander_distribution cexC3decks false).map DistEntry.pct).sum - 100|
        ≤ 1/10) := by
  have hs : (dist_scores commanderKey false cexC3decks).insertionSort
      (fun a b => b.2 ≤ a.2)
      = [("A",1),("B",1),("Cq",1),("D",1),("E",1),("F",1)] := by decide
  have hsum : ((dist_scores commanderKey false cexC3decks).map Prod.snd).sum = 6 := by
    have h0 : dist_scores commanderKey false cexC3decks
        = [("A",1),("B",1),("Cq",1),("D",1),("E",1),("F",1)] := by decide
    rw [h0]
    norm_num
  have htot : dist_total (dist_scores commanderKey false cexC3decks) = 6 := by
    unfold dist_total
    rw [hsum]
    norm_num
  have hd : commander_distribution cexC3decks false
      = [("A",1),("B",1),("Cq",1),("D",1),("E",1),("F",1)].map
          (fun kn : String × ℚ => ⟨kn.1, round1 kn.2, round1 (100 * kn.2 / 6)⟩) := by
    unfold commander_distribution distribution_of
    rw [hs, htot]
  rw [hd]
  simp only [List.map_map, List.map_cons, List.map_nil, List.sum_cons, List.sum_nil,
    Function.comp]
  rw [cexC3_round]
  intro hcon
  rw [abs_le] at hcon
  obtain ⟨h1, h2⟩ := hcon
  norm_num at h2

theorem distributions_pct_sum_witness :
    |((commander_distribution cexC3decks false).map DistEntry.pct).sum - 100|
        ≤ ((commander_distribution cexC3decks false).length : ℚ) / 20
    ∧ |((archetype_distribution cexC3decks false).map DistEntry.pct).sum - 100|
        ≤ ((archetype_distribution cexC3decks false).length : ℚ) / 20 :=
  (distributions_pct_sum_spec cexC3decks false).1 (by decide)

/-! ### C1: duplicate-deck detection (`find_duplicate_decks`) -/

/-- Python dict assignment `m[k] = v`: replace in place or append. -/
def dictInsert {κ β : Type} [DecidableEq κ] (m : List (κ × β)) (k : κ) (v : β) :
    List (κ × β) :=
  match m with
  | [] => [(k, v)]
  | (k2, v2) :: rest =>
    if k2 = k then (k2, v) :: rest else (k2, v2) :: dictInsert rest k v

/-- `mainboard_key`: the canonical signature, the mainboard sorted as Python
sorts `(qty, card)` tuples (lexicographically). -/
def mainboard_key (d : Deck) : List (Nat × String) :=
  d.mainboard.insertionSort (fun a b => a.1 < b.1 ∨ (a.1 = b.1 ∧ a.2 ≤ b.2))

/-- The ids collected for one signature by the `by_key` dict (input order). -/
def group_ids (decks : List Deck) (k : List (Nat × String)) : List Nat :=
  (decks.filter (fun d => decide (mainboard_key d = k))).map Deck.deck_id

/-- `by_key.values()`: one id group per distinct signature, in key-insertion
order. -/
def by_key_groups (decks : List Deck) : List (List Nat) :=
  (firstOccur (decks.map mainboard_key)).map (group_ids decks)

/-- `find_duplicate_decks`:
`{ids[0]: ids[1:] for ids in by_key.values() if len(ids) > 1}`. -/
def find_duplicate_decks (decks : List Deck) : List (Nat × List Nat) :=
  ((by_key_groups decks).filter (fun ids => decide (1 < ids.length))).foldl
    (fun m ids => dictInsert m (ids.headD 0) ids.tail) []

theorem dictInsert_of_not_mem {κ β : Type} [DecidableEq κ] {m : List (κ × β)}
    {k : κ} (v : β) (h : k ∉ m.map Prod.fst) :
    dictInsert m k v = m ++ [(k, v)] := by
  induction m with
  | nil => rfl
  | cons p rest ih =>
    obtain ⟨k2, v2⟩ := p
    simp only [List.map_cons, List.mem_cons] at h
    push_neg at h
    simp only [dictInsert, if_neg (Ne.symm h.1), List.cons_append, List.cons.injEq,
      true_and]
    exact ih h.2

theorem foldl_dictInsert_map {α κ β : Type} [DecidableEq κ] (key : α → κ)
    (val : α → β) :
    ∀ (l : List α) (m : List (κ × β)),
      (m.map Prod.fst ++ l.map key).Nodup →
      l.foldl (fun acc a => dictInsert acc (key a) (val a)) m
        = m ++ l.map (fun a => (key a, val a))
  | [], m, _ => by simp
  | a :: l, m, h => by
    have h' : (m.map Prod.fst ++ key a :: l.map key).Nodup := by simpa using h
    have hk : key a ∉ m.map Prod.fst := by
      intro hmem
      exact (List.disjoint_of_nodup_append h') hmem (List.mem_cons_self _ _)
    simp only [List.foldl_cons]
    rw [dictInsert_of_not_mem (val a) hk]
    rw [foldl_dictInsert_map key val l (m ++ [(key a, val a)]) ?_]
    · simp
    · simp only [List.map_append, List.map_cons, List.map_nil, List.append_assoc,
        List.cons_append, List.nil_append]
      exact h'

theorem group_ids_head (decks : List Deck) (k : List (Nat × String))
    (hk : ∃ d ∈ decks, mainboard_key d = k) :
    ∃ d0 ∈ decks, mainboard_key d0 = k
      ∧ group_ids decks k = d0.deck_id :: (group_ids decks k).tail := by
  obtain ⟨d, hd, hdk⟩ := hk
  have hmem : d ∈ decks.filter (fun d2 => decide (mainboard_key d2 = k)) :=
    List.mem_filter.2 ⟨hd, by simp [hdk]⟩
  cases hF : decks.filter (fun d2 => decide (mainboard_key d2 = k)) with
  | nil => rw [hF] at hmem; cases hmem
  | cons f0 tl =>
    have hf0 : f0 ∈ decks.filter (fun d2 => decide (mainboard_key d2 = k)) := by
      rw [hF]; exact List.mem_cons_self _ _
    have hf0d : f0 ∈ decks := List.mem_of_mem_filter hf0
    have hf0k : mainboard_key f0 = k := by
      have := List.of_mem_filter hf0
      simpa using this
    refine ⟨f0, hf0d, hf0k, ?_⟩
    unfold group_ids
    rw [hF]
    simp

theorem heads_inj (decks : List Deck) (hids : (decks.map Deck.deck_id).Nodup) :
    ∀ k1 ∈ (firstOccur (decks.map mainboard_key)).filter
        (fun k => decide (1 < (group_ids decks k).length)),
      ∀ k2 ∈ (firstOccur (decks.map mainboard_key)).filter
        (fun k => decide (1 < (group_ids decks k).length)),
      (group_ids decks k1).headD 0 = (group_ids decks k2).headD 0 → k1 = k2 := by
  intro k1 hk1 k2 hk2 hheads
  have hk1m : k1 ∈ decks.map mainboard_key :=
    mem_firstOccur.1 (List.mem_of_mem_filter hk1)
  have hk2m : k2 ∈ decks.map mainboard_key :=
    mem_firstOccur.1 (List.mem_of_mem_filter hk2)
  obtain ⟨d1, hd1, hd1k⟩ := List.mem_map.1 hk1m
  obtain ⟨d2, hd2, hd2k⟩ := List.mem_map.1 hk2m
  obtain ⟨e1, he1, he1k, hg1⟩ := group_ids_head decks k1 ⟨d1, hd1, hd1k⟩
  obtain ⟨e2, he2, he2k, hg2⟩ := group_ids_head decks k2 ⟨d2, hd2, hd2k⟩
  have hh1 : (group_ids decks k1).headD 0 = e1.deck_id := by rw [hg1]; rfl
  have hh2 : (group_ids decks k2).headD 0 = e2.deck_id := by rw [hg2]; rfl
  have hid : e1.deck_id = e2.deck_id := by rw [← hh1, ← hh2, hheads]
  have heq : e1 = e2 := List.inj_on_of_nodup_map hids he1 he2 hid
  rw [← he1k, ← he2k, heq]

theorem find_duplicate_decks_eq (decks : List Deck)
    (hids : (decks.map Deck.deck_id).Nodup) :
    find_duplicate_decks decks
      = ((firstOccur (decks.map mainboard_key)).filter
            (fun k => decide (1 < (group_ids decks k).length))).map
          (fun k => ((group_ids decks k).headD 0, (group_ids decks k).tail)) := by
  have hfil : (by_key_groups decks).filter (fun ids => decide (1 < ids.length))
      = ((firstOccur (decks.map mainboard_key)).filter
          (fun k => decide (1 < (group_ids decks k).length))).map (group_ids decks) := by
    unfold by_key_groups
    rw [List.filter_map]
    rfl
  unfold find_duplicate_decks
  rw [hfil]
  rw [foldl_dictInsert_map (fun ids : List Nat => ids.headD 0)
    (fun ids : List Nat => ids.tail) _ [] ?_]
  · rw [List.nil_append, List.map_map]
    rfl
  · rw [List.map_nil, List.nil_append, List.map_map]
    exact ((nodup_firstOccur (decks.map mainboard_key)).filter _).map_on
      (heads_inj decks hids)

/-- C1 (amended): with unique deck ids (as the data model guarantees),
`find_duplicate_decks` has one entry per signature group of size > 1, mapping
the id of the group's *first deck in input order* (not the minimum id) to the
ids of the remaining decks of the group in input order; groups of size 1 are
omitted. -/
theorem find_duplicate_decks_spec (decks : List Deck)
    (hids : (decks.map Deck.deck_id).Nodup) (p : Nat) (ds : List Nat) :
    (p, ds) ∈ find_duplicate_decks decks
      ↔ ∃ d ∈ decks, group_ids decks (mainboard_key d) = p :: ds ∧ ds ≠ [] := by
  rw [find_duplicate_decks_eq decks hids]
  constructor
  · intro h
    obtain ⟨k, hk, heq⟩ := List.mem_map.1 h
    have hkf := List.mem_filter.1 hk
    have hkeys : k ∈ decks.map mainboard_key := mem_firstOccur.1 hkf.1
    obtain ⟨d, hd, hdk⟩ := List.mem_map.1 hkeys
    obtain ⟨d0, hd0, hd0k, hgrp⟩ := group_ids_head decks k ⟨d, hd, hdk⟩
    have hp : p = d0.deck_id := by
      have := congrArg Prod.fst heq
      simp only at this
      rw [← this, hgrp]
      rfl
    have hds : ds = (group_ids decks k).tail := by
      have := congrArg Prod.snd heq
      simp only at this
      rw [← this]
    refine ⟨d0, hd0, ?_, ?_⟩
    · rw [hd0k, hgrp, ← hp, ← hds]
    · have hlen : 1 < (group_ids decks k).length := by
        have := hkf.2
        simpa using this
      rw [hgrp] at hlen
      simp only [List.length_cons] at hlen
      intro hcon
      rw [hds, hgrp] at hcon
      simp only [List.tail_cons] at hcon
      rw [hcon] at hlen
      simp at hlen
  · rintro ⟨d, hd, hgrp, hds⟩
    apply List.mem_map.2
    refine ⟨mainboard_key d, List.mem_filter.2 ⟨mem_firstOccur.2 ?_, ?_⟩, ?_⟩
    · exact List.mem_map_of_mem mainboard_key hd
    · rw [hgrp]
      simp only [List.length_cons, decide_eq_true_eq]
      cases ds with
      | nil => exact absurd rfl hds
      | cons x xs => simp
    · rw [hgrp]
      rfl

def cexC1deckA : Deck :=
  ⟨5, 0, "MO", "n", "p1", "e", "01/01/25", "1", 0,
    [(4, "Bolt"), (2, "Opt")], [], [], none⟩

def cexC1deckB : Deck :=
  ⟨3, 0, "MO", "n", "p2", "e", "01/01/25", "2", 0,
    [(2, "Opt"), (4, "Bolt")], [], [], none⟩

/-- Two decks with identical mainboard multisets, the larger id first. -/
def cexC1decks : List Deck := [cexC1deckA, cexC1deckB]

/-- On `[id 5, id 3]` with identical mainboards the primary is `5` (first in
input order), not the minimum `3`: the claim's minimum-id mapping is absent. -/
theorem find_duplicate_decks_counterexample :
    find_duplicate_decks cexC1decks = [(5, [3])]
    ∧ (3, [5]) ∉ find_duplicate_decks cexC1decks := by decide

theorem find_duplicate_decks_spec_witness :
    (5, [3]) ∈ find_duplicate_decks cexC1decks :=
  (find_duplicate_decks_spec cexC1decks (by decide) 5 [3]).2
    ⟨cexC1deckA, by decide, by decide, by decide⟩

/-! ### C2: top mainboard cards (`top_cards_main`) -/

/-- `BASIC_LANDS`. -/
def BASIC_LANDS : List String :=
  ["Plains", "Island", "Swamp", "Mountain", "Forest",
   "Snow-Covered Plains", "Snow-Covered Island", "Snow-Covered Swamp",
   "Snow-Covered Mountain", "Snow-Covered Forest", "Wastes"]

/-- `LAND_KEYWORDS`: exact full names only. -/
def LAND_KEYWORDS : List String :=
  ["Land", "Lands", "Command Tower",
   "Tundra", "Underground Sea", "Badlands", "Taiga", "Savannah",
   "Scrubland", "Volcanic Island", "Bayou", "Plateau", "Tropical Island",
   "Arid Mesa", "Marsh Flats", "Misty Rainforest", "Scalding Tarn", "Verdant Catacombs",
   "Flooded Strand", "Polluted Delta", "Windswept Heath", "Wooded Foothills", "Bloodstained Mire",
   "Hallowed Fountain", "Temple Garden", "Sacred Foundry", "Stomping Ground", "Breeding Pool",
   "Godless Shrine", "Steam Vents", "Overgrown Tomb", "Blood Crypt", "Watery Grave",
   "Barkchannel Pathway", "Blightstep Pathway", "Boulderloft Pathway", "Branchloft Pathway",
   "Brightclimb Pathway", "Clearwater Pathway", "Cragcrown Pathway", "Darkbore Pathway",
   "Grimclimb Pathway", "Hengegate Pathway", "Ice Tunnel Pathway", "Lavaglide Pathway",
   "Mistgate Pathway", "Murkwater Pathway", "Needleverge Pathway", "Pillarverge Pathway",
   "Riverglide Pathway", "Searstep Pathway", "Shadowgrange Pathway", "Silvergill Pathway",
   "Skyclave Pathway", "Slitherbore Pathway", "Sundown Pass", "Tidechannel Pathway",
   "Timbercrown Pathway", "Vineglimmer Pathway",
   "Razorverge Thicket", "Copperline Gorge", "Blackcleave Cliffs", "Seachrome Coast",
   "Darkslick Shores", "Concealed Courtyard", "Inspiring Vantage", "Spirebluff Canal",
   "Botanical Sanctum", "Blooming Marsh"]

/-- `_is_land_card`: exact full name matching only. -/
def is_land_card (card : String) : Bool :=
  decide (card ∈ BASIC_LANDS) || decide (card ∈ LAND_KEYWORDS)

/-- The mainboard entries the `top_cards_main` loop does not `continue` past. -/
def kept_main (ignore_lands : Bool) (d : Deck) : List (Nat × String) :=
  d.mainboard.filter (fun qc =>
    !(decide (qc.2 ∈ BASIC_LANDS)) && !(ignore_lands && is_land_card qc.2))

/-- `card_copies[c]`: the weighted copy count accumulated for card `c`. -/
def card_copies (decks : List Deck) (pw il : Bool) (c : String) : ℚ :=
  (decks.map (fun d =>
    (((kept_main il d).filter (fun qc => decide (qc.2 = c))).map
        (fun qc => (qc.1 : ℚ) * (if pw then get_weight d.rank else 1))).sum)).sum

/-- `card_decks[c]`: the set of deck ids whose mainboard contains card `c`. -/
def card_deck_ids (decks : List Deck) (il : Bool) (c : String) : List Nat :=
  firstOccur ((decks.filter (fun d =>
    (kept_main il d).any (fun qc => decide (qc.2 = c)))).map Deck.deck_id)

/-- The keys of the `card_decks`/`card_copies` dicts, in insertion order. -/
def card_keys (decks : List Deck) (il : Bool) : List String :=
  firstOccur (decks.flatMap (fun d => (kept_main il d).map (fun qc => qc.2)))

/-- One output row of `top_cards_main`. -/
structure CardEntry where
  card : String
  decks : Nat
  play_rate_pct : ℚ
  total_copies : ℚ
deriving DecidableEq

def mkCardEntry (decks : List Deck) (pw il : Bool) (c : String) : CardEntry :=
  ⟨c, (card_deck_ids decks il c).length,
    round1 (100 * ((card_deck_ids decks il c).length : ℚ) / (decks.length : ℚ)),
    round1 (card_copies decks pw il c)⟩

/-- `top_cards_main`: keys sorted stably by descending weighted copies, turned
into rows, truncated to 100. -/
def top_cards_main (decks : List Deck) (pw il : Bool) : List CardEntry :=
  (((card_keys decks il).insertionSort
      (fun a b => card_copies decks pw il b ≤ card_copies decks pw il a)).map
    (mkCardEntry decks pw il)).take 100

theorem round1_mono {x y : ℚ} (h : x ≤ y) : round1 x ≤ round1 y := by
  have hr : round (10 * x) ≤ round (10 * y) := by
    rw [round_eq, round_eq]
    exact Int.floor_le_floor (by linarith)
  have hc : ((round (10 * x) : ℤ) : ℚ) ≤ ((round (10 * y) : ℤ) : ℚ) := by
    exact_mod_cast hr
  unfold round1
  linarith

/-- C2: `top_cards_main` returns at most 100 rows, never a basic land, and the
rows are ordered by descending weighted copy count, hence also by descending
`total_copies`. -/
theorem top_cards_main_spec (decks : List Deck) (pw il : Bool) :
    (top_cards_main decks pw il).length ≤ 100
    ∧ (∀ e ∈ top_cards_main decks pw il, e.card ∉ BASIC_LANDS)
    ∧ (top_cards_main decks pw il).Pairwise
        (fun a b => card_copies decks pw il b.card ≤ card_copies decks pw il a.card
          ∧ b.total_copies ≤ a.total_copies) := by
  refine ⟨?_, ?_, ?_⟩
  · unfold top_cards_main
    rw [List.length_take]
    exact min_le_left _ _
  · intro e he
    unfold top_cards_main at he
    have he2 := List.mem_of_mem_take he
    obtain ⟨c, hc, hce⟩ := List.mem_map.1 he2
    have hck : c ∈ card_keys decks il := (List.mem_insertionSort _).1 hc
    have hcs := mem_firstOccur.1 hck
    obtain ⟨d, _, hcd⟩ := List.mem_flatMap.1 hcs
    obtain ⟨qc, hqc, hqcc⟩ := List.mem_map.1 hcd
    have hkeep := List.of_mem_filter hqc
    have hcard : e.card = c := by
      rw [← hce]
      rfl
    rw [hcard, ← hqcc]
    intro hmem
    simp only [Bool.and_eq_true, Bool.not_eq_eq_eq_not, Bool.not_true,
      decide_eq_false_iff_not] at hkeep
    exact hkeep.1 hmem
  · unfold top_cards_main
    apply List.Pairwise.sublist (List.take_sublist _ _)
    rw [List.pairwise_map]
    haveI htot : IsTotal String
        (fun a b => card_copies decks pw il b ≤ card_copies decks pw il a) :=
      ⟨fun a b => le_total _ _⟩
    haveI htr : IsTrans String
        (fun a b => card_copies decks pw il b ≤ card_copies decks pw il a) :=
      ⟨fun _ _ _ hab hbc => le_trans hbc hab⟩
    have hsorted := List.sorted_insertionSort
      (fun a b => card_copies decks pw il b ≤ card_copies decks pw il a)
      (card_keys decks il)
    refine hsorted.imp ?_
    intro a b hab
    exact ⟨hab, round1_mono hab⟩

/-- A deck whose only mainboard card is a nonland, for the C2 witness. -/
def cexC2decks : List Deck :=
  [⟨7, 0, "MO", "n", "p1", "e", "01/01/25", "1", 0, [(4, "Bolt")], [], [], none⟩]

theorem top_cards_main_spec_witness :
    (mkCardEntry cexC2decks false false "Bolt").card ∉ BASIC_LANDS :=
  (top_cards_main_spec cexC2decks false false).2.1
    (mkCardEntry cexC2decks false false "Bolt") (List.mem_singleton_self _)

/-! ### C6/C9: the player leaderboard (`player_leaderboard`) -/

/-- One row of the `stats` dict. -/
structure PlayerStats where
  player : String
  wins : Nat
  top2 : Nat
  top4 : Nat
  top8 : Nat
  points : ℚ
  deck_count : Nat
deriving DecidableEq

/-- `norm(d.player or "(unknown)")` with `norm` defaulting to the identity. -/
def normPlayer (norm : Option (String → String)) (d : Deck) : String :=
  (norm.getD id) (if d.player = "" then "(unknown)" else d.player)

def initStats (p : String) : PlayerStats := ⟨p, 0, 0, 0, 0, 0, 0⟩

/-- The per-deck update of one player's stats row. -/
def updStats (s : PlayerStats) (d : Deck) : PlayerStats :=
  { s with
    deck_count := s.deck_count + 1
    points := s.points + get_weight d.rank
    wins := if d.rank = "1" then s.wins + 1 else s.wins
    top2 := if d.rank = "1" ∨ d.rank = "2" then s.top2 + 1 else s.top2
    top4 := if d.rank = "1" ∨ d.rank = "2" ∨ d.rank = "3-4" then s.top4 + 1
      else s.top4
    top8 := if d.rank = "1" ∨ d.rank = "2" ∨ d.rank = "3-4" ∨ d.rank = "5-8"
      then s.top8 + 1 else s.top8 }

/-- One iteration of the stats loop: create the row if absent, then update. -/
def lbStep (norm : Option (String → String)) (stats : List PlayerStats)
    (d : Deck) : List PlayerStats :=
  if stats.any (fun s => decide (s.player = normPlayer norm d)) then
    stats.map (fun s => if s.player = normPlayer norm d then updStats s d else s)
  else
    stats ++ [updStats (initStats (normPlayer norm d)) d]

/-- `player_leaderboard`: fold the stats loop, then sort by wins then points,
both descending. -/
def player_leaderboard (decks : List Deck) (norm : Option (String → String)) :
    List PlayerStats :=
  (decks.foldl (lbStep norm) []).insertionSort
    (fun a b => b.wins < a.wins ∨ (a.wins = b.wins ∧ b.points ≤ a.points))

/-- The stats row of player `p` described directly: counts and sums over the
decks whose (normalized) player name is `p`. -/
def statsFor (norm : Option (String → String)) (decks : List Deck)
    (p : String) : PlayerStats :=
  ⟨p,
   (decks.filter (fun d => decide (normPlayer norm d = p))).countP
     (fun d => decide (d.rank = "1")),
   (decks.filter (fun d => decide (normPlayer norm d = p))).countP
     (fun d => decide (d.rank = "1" ∨ d.rank = "2")),
   (decks.filter (fun d => decide (normPlayer norm d = p))).countP
     (fun d => decide (d.rank = "1" ∨ d.rank = "2" ∨ d.rank = "3-4")),
   (decks.filter (fun d => decide (normPlayer norm d = p))).countP
     (fun d => decide (d.rank = "1" ∨ d.rank = "2" ∨ d.rank = "3-4" ∨ d.rank = "5-8")),
   ((decks.filter (fun d => decide (normPlayer norm d = p))).map
     (fun d => get_weight d.rank)).sum,
   (decks.filter (fun d => decide (normPlayer norm d = p))).length⟩

theorem statsFor_player (norm : Option (String → String)) (decks : List Deck)
    (p : String) : (statsFor norm decks p).player = p := rfl

theorem statsFor_of_not_mem (norm : Option (String → String)) {decks : List Deck}
    {p : String} (h : p ∉ decks.map (normPlayer norm)) :
    statsFor norm decks p = initStats p := by
  have hfil : decks.filter (fun d => decide (normPlayer norm d = p)) = [] := by
    rw [List.filter_eq_nil_iff]
    intro d hd
    simp only [decide_eq_true_eq]
    intro hc
    exact h (hc ▸ List.mem_map_of_mem (normPlayer norm) hd)
  unfold statsFor initStats
  rw [hfil]
  rfl

theorem statsFor_append (norm : Option (String → String)) (l : List Deck)
    (d : Deck) (p : String) :
    statsFor norm (l ++ [d]) p
      = if normPlayer norm d = p then updStats (statsFor norm l p) d
        else statsFor norm l p := by
  by_cases h : normPlayer norm d = p
  · have hfd : List.filter (fun d2 => decide (normPlayer norm d2 = p)) [d] = [d] := by
      simp [h]
    rw [if_pos h]
    unfold statsFor updStats
    simp only [List.filter_append, hfd]
    simp only [PlayerStats.mk.injEq, true_and]
    refine ⟨?_, ?_, ?_, ?_, ?_, ?_⟩
    · by_cases h1 : d.rank = "1" <;>
        simp [List.countP_append, List.countP_cons, h1]
    · by_cases h1 : d.rank = "1" ∨ d.rank = "2" <;>
        simp [List.countP_append, List.countP_cons, h1]
    · by_cases h1 : d.rank = "1" ∨ d.rank = "2" ∨ d.rank = "3-4" <;>
        simp [List.countP_append, List.countP_cons, h1]
    · by_cases h1 : d.rank = "1" ∨ d.rank = "2" ∨ d.rank = "3-4" ∨ d.rank = "5-8" <;>
        simp [List.countP_append, List.countP_cons, h1]
    · simp
    · simp
  · have hfd : List.filter (fun d2 => decide (normPlayer norm d2 = p)) [d] = [] := by
      simp [h]
    rw [if_neg h]
    unfold statsFor
    simp only [List.filter_append, hfd, List.append_nil]

theorem firstOccur_append_singleton {α : Type} [DecidableEq α] (l : List α)
    (a : α) :
    firstOccur (l ++ [a])
      = if a ∈ l then firstOccur l else firstOccur l ++ [a] := by
  induction l with
  | nil => simp [firstOccur]
  | cons b l ih =>
    have hstep : firstOccur ((b :: l) ++ [a])
        = b :: (firstOccur (l ++ [a])).filter (fun x => decide (x ≠ b)) := rfl
    have hcons : firstOccur (b :: l)
        = b :: (firstOccur l).filter (fun x => decide (x ≠ b)) := rfl
    rw [hstep, ih, hcons]
    by_cases hab : a = b
    · subst hab
      simp only [List.mem_cons, true_or, if_true]
      by_cases hal : a ∈ l
      · rw [if_pos hal]
      · rw [if_neg hal, List.filter_append]
        simp
    · have hmem : (a ∈ b :: l) ↔ (a ∈ l) := by
        simp [List.mem_cons, hab]
      rw [if_congr hmem rfl rfl]
      by_cases hal : a ∈ l
      · rw [if_pos hal, if_pos hal]
      · rw [if_neg hal, if_neg hal, List.filter_append]
        have : [a].filter (fun x => decide (x ≠ b)) = [a] := by
          simp [hab]
        rw [this]
        simp

set_option maxHeartbeats 1000000 in
theorem lb_fold_eq (norm : Option (String → String)) (decks : List Deck) :
    decks.foldl (lbStep norm) []
      = (firstOccur (decks.map (normPlayer norm))).map (statsFor norm decks) := by
  induction decks using List.reverseRecOn with
  | nil => rfl
  | append_singleton l d ih =>
    rw [List.foldl_append, List.foldl_cons, List.foldl_nil, ih]
    rw [List.map_append, List.map_cons, List.map_nil, firstOccur_append_singleton]
    unfold lbStep
    by_cases hk : normPlayer norm d ∈ l.map (normPlayer norm)
    · have hany : ((firstOccur (l.map (normPlayer norm))).map (statsFor norm l)).any
          (fun s => decide (s.player = normPlayer norm d)) = true := by
        rw [List.any_eq_true]
        exact ⟨statsFor norm l (normPlayer norm d),
          List.mem_map_of_mem _ (mem_firstOccur.2 hk), by simp [statsFor_player]⟩
      rw [if_pos hany, if_pos hk, List.map_map]
      apply List.map_congr_left
      intro p _
      simp only [Function.comp_apply, statsFor_player]
      rw [statsFor_append]
      by_cases hpd : normPlayer norm d = p
      · simp [hpd]
      · rw [if_neg hpd, if_neg (fun hc => hpd hc.symm)]
    · have hany : ((firstOccur (l.map (normPlayer norm))).map (statsFor norm l)).any
          (fun s => decide (s.player = normPlayer norm d)) = false := by
        rw [List.any_eq_false]
        intro s hs
        obtain ⟨p, hp, hps⟩ := List.mem_map.1 hs
        rw [← hps]
        simp only [statsFor_player, decide_eq_true_eq]
        intro hc
        exact hk (hc ▸ mem_firstOccur.1 hp)
      rw [if_neg (by rw [hany]; exact Bool.false_ne_true), if_neg hk]
      rw [List.map_append]
      congr 1
      · apply List.map_congr_left
        intro p hp
        rw [statsFor_append]
        rw [if_neg]
        intro hc
        exact hk (hc ▸ mem_firstOccur.1 hp)
      · rw [List.map_cons, List.map_nil]
        rw [statsFor_append, if_pos rfl, statsFor_of_not_mem norm hk]

theorem lb_rel_total : ∀ a b : PlayerStats,
    (b.wins < a.wins ∨ (a.wins = b.wins ∧ b.points ≤ a.points))
    ∨ (a.wins < b.wins ∨ (b.wins = a.wins ∧ a.points ≤ b.points)) := by
  intro a b
  rcases lt_trichotomy a.wins b.wins with h | h | h
  · exact Or.inr (Or.inl h)
  · rcases le_total b.points a.points with hp | hp
    · exact Or.inl (Or.inr ⟨h, hp⟩)
    · exact Or.inr (Or.inr ⟨h.symm, hp⟩)
  · exact Or.inl (Or.inl h)

theorem lb_rel_trans : ∀ a b c : PlayerStats,
    (b.wins < a.wins ∨ (a.wins = b.wins ∧ b.points ≤ a.points)) →
    (c.wins < b.wins ∨ (b.wins = c.wins ∧ c.points ≤ b.points)) →
    (c.wins < a.wins ∨ (a.wins = c.wins ∧ c.points ≤ a.points)) := by
  intro a b c hab hbc
  rcases hab with hab | ⟨hab1, hab2⟩
  · rcases hbc with hbc | ⟨hbc1, hbc2⟩
    · exact Or.inl (lt_trans hbc hab)
    · exact Or.inl (hbc1 ▸ hab)
  · rcases hbc with hbc | ⟨hbc1, hbc2⟩
    · exact Or.inl (hab1 ▸ hbc)
    · exact Or.inr ⟨hab1.trans hbc1, le_trans hbc2 hab2⟩

/-- Characterization of `player_leaderboard` for any canonicalizer: distinct
rows per occurring player name, each row the filter/count statistics of that
player, ordered by descending wins then descending points. -/
theorem player_leaderboard_char (decks : List Deck)
    (norm : Option (String → String)) :
    ((player_leaderboard decks norm).map PlayerStats.player).Nodup
    ∧ (∀ p, p ∈ (player_leaderboard decks norm).map PlayerStats.player
        ↔ p ∈ decks.map (normPlayer norm))
    ∧ (∀ s ∈ player_leaderboard decks norm, s = statsFor norm decks s.player)
    ∧ (player_leaderboard decks norm).Pairwise
        (fun a b => b.wins < a.wins ∨ (a.wins = b.wins ∧ b.points ≤ a.points)) := by
  have hperm : List.Perm (player_leaderboard decks norm)
      (decks.foldl (lbStep norm) []) := List.perm_insertionSort _ _
  have hfold := lb_fold_eq norm decks
  have hmapeq : (decks.foldl (lbStep norm) []).map PlayerStats.player
      = firstOccur (decks.map (normPlayer norm)) := by
    rw [hfold, List.map_map]
    have hcomp : PlayerStats.player ∘ statsFor norm decks = id :=
      funext (statsFor_player norm decks)
    rw [hcomp, List.map_id]
  refine ⟨?_, ?_, ?_, ?_⟩
  · have h1 : List.Perm ((decks.foldl (lbStep norm) []).map PlayerStats.player)
        ((player_leaderboard decks norm).map PlayerStats.player) :=
      (hperm.map _).symm
    exact h1.nodup (hmapeq ▸ nodup_firstOccur _)
  · intro p
    rw [(hperm.map PlayerStats.player).mem_iff, hmapeq, mem_firstOccur]
  · intro s hs
    have hs2 : s ∈ decks.foldl (lbStep norm) [] := hperm.mem_iff.1 hs
    rw [hfold] at hs2
    obtain ⟨p, _, hps⟩ := List.mem_map.1 hs2
    rw [← hps, statsFor_player]
  · haveI : IsTotal PlayerStats
        (fun a b => b.wins < a.wins ∨ (a.wins = b.wins ∧ b.points ≤ a.points)) :=
      ⟨lb_rel_total⟩
    haveI : IsTrans PlayerStats
        (fun a b => b.wins < a.wins ∨ (a.wins = b.wins ∧ b.points ≤ a.points)) :=
      ⟨lb_rel_trans⟩
    exact List.sorted_insertionSort _ _

/-- C6: with the identity canonicalizer, `player_leaderboard` has one row per
distinct player name; each row's `wins`, `top2`, `top4`, `top8`, `deck_count`
count that player's decks with the corresponding ranks and `points` sums their
`RANK_WEIGHTS` placement weights (default 1); rows are ordered by descending
wins, then descending points. -/
theorem player_leaderboard_spec (decks : List Deck) :
    ((player_leaderboard decks none).map PlayerStats.player).Nodup
    ∧ (∀ p, p ∈ (player_leaderboard decks none).map PlayerStats.player
        ↔ p ∈ decks.map (normPlayer none))
    ∧ (∀ s ∈ player_leaderboard decks none, s = statsFor none decks s.player)
    ∧ (player_leaderboard decks none).Pairwise
        (fun a b => b.wins < a.wins ∨ (a.wins = b.wins ∧ b.points ≤ a.points)) :=
  player_leaderboard_char decks none

/-- C9: every leaderboard row satisfies
`wins ≤ top2 ≤ top4 ≤ top8 ≤ deck_count`, for every canonicalizer. -/
theorem player_leaderboard_counts_monotone (decks : List Deck)
    (norm : Option (String → String)) :
    ∀ s ∈ player_leaderboard decks norm,
      s.wins ≤ s.top2 ∧ s.top2 ≤ s.top4 ∧ s.top4 ≤ s.top8
        ∧ s.top8 ≤ s.deck_count := by
  intro s hs
  have hchar := (player_leaderboard_char decks norm).2.2.1 s hs
  rw [hchar]
  unfold statsFor
  refine ⟨?_, ?_, ?_, ?_⟩
  · apply List.countP_mono_left
    intro d _ hd
    simp only [decide_eq_true_eq] at hd ⊢
    exact Or.inl hd
  · apply List.countP_mono_left
    intro d _ hd
    simp only [decide_eq_true_eq] at hd ⊢
    tauto
  · apply List.countP_mono_left
    intro d _ hd
    simp only [decide_eq_true_eq] at hd ⊢
    tauto
  · exact List.countP_le_length _

def lbC6decks : List Deck :=
  [⟨1, 0, "MO", "n", "Ann", "e", "01/01/25", "1", 0, [], [], [], none⟩]

theorem player_leaderboard_spec_witness :
    "Ann" ∈ (player_leaderboard lbC6decks none).map PlayerStats.player :=
  ((player_leaderboard_spec lbC6decks).2.1 "Ann").2 (by decide)

def lbC9deck : Deck :=
  ⟨2, 0, "MO", "n", "Bob", "e", "01/01/25", "2", 0, [], [], [], none⟩

def lbC9decks : List Deck := [lbC9deck]

theorem player_leaderboard_counts_monotone_witness :
    (updStats (initStats "Bob") lbC9deck).wins
        ≤ (updStats (initStats "Bob") lbC9deck).top2
    ∧ (updStats (initStats "Bob") lbC9deck).top2
        ≤ (updStats (initStats "Bob") lbC9deck).top4
    ∧ (updStats (initStats "Bob") lbC9deck).top4
        ≤ (updStats (initStats "Bob") lbC9deck).top8
    ∧ (updStats (initStats "Bob") lbC9deck).top8
        ≤ (updStats (initStats "Bob") lbC9deck).deck_count :=
  player_leaderboard_counts_monotone lbC9decks none _ (List.mem_singleton_self _)

/-! ### C5/C10: similarity search (`similar_decks`) -/

/-- One output row of `similar_decks`. -/
structure SimEntry where
  deck_id : Nat
  name : String
  player : String
  event_name : String
  date : String
  rank : String
  similarity : ℚ
deriving DecidableEq

/-- `set(c for _, c in mb)`: the distinct mainboard card names. -/
def card_names (mb : List (Nat × String)) : List String :=
  firstOccur (mb.map (fun qc => qc.2))

/-- `intersection / union if union else 0` on mainboard card-name sets. -/
def jaccard (a b : Deck) : ℚ :=
  if (firstOccur (a.mainboard.map (fun qc => qc.2)
      ++ b.mainboard.map (fun qc => qc.2))).length = 0 then 0
  else (((card_names a.mainboard).filter
      (fun c => decide (c ∈ card_names b.mainboard))).length : ℚ)
    / ((firstOccur (a.mainboard.map (fun qc => qc.2)
      ++ b.mainboard.map (fun qc => qc.2))).length : ℚ)

/-- The loop's two `continue` guards: skip the reference deck by id, skip
candidates with an empty mainboard. -/
def sim_eligible (deck : Deck) (d : Deck) : Bool :=
  decide (d.deck_id ≠ deck.deck_id) && !(card_names d.mainboard).isEmpty

def mkSimEntry (sim : ℚ) (d : Deck) : SimEntry :=
  ⟨d.deck_id, d.name, d.player, d.event_name, d.date, d.rank, round1 (sim * 100)⟩

/-- `similar_decks`: collect `(sim, deck)` for eligible candidates, sort by
descending similarity (stably), truncate, and emit rows. -/
def similar_decks (deck : Deck) (all_decks : List Deck) (limit : Nat) :
    List SimEntry :=
  if (card_names deck.mainboard).isEmpty then []
  else
    ((((all_decks.filter (sim_eligible deck)).map
          (fun d => (jaccard deck d, d))).insertionSort
        (fun a b => b.1 ≤ a.1)).take limit).map
      (fun sd => mkSimEntry sd.1 sd.2)

/-- C10: a reference deck with an empty mainboard yields no similar decks. -/
theorem similar_decks_empty_mainboard (deck : Deck) (all_decks : List Deck)
    (limit : Nat) (h : deck.mainboard = []) :
    similar_decks deck all_decks limit = [] := by
  unfold similar_decks
  rw [if_pos]
  rw [h]
  rfl

def cexC10deck : Deck :=
  ⟨9, 0, "MO", "n", "p", "e", "01/01/25", "1", 0, [], [(2, "Opt")], [], none⟩

def cexC10pool : List Deck :=
  [⟨10, 0, "MO", "n", "p", "e", "01/01/25", "2", 0, [(4, "Bolt")], [], [], none⟩]

theorem similar_decks_empty_mainboard_witness :
    similar_decks cexC10deck cexC10pool 5 = [] :=
  similar_decks_empty_mainboard cexC10deck cexC10pool 5 rfl

/-- C5: for a reference deck with cards, `similar_decks` returns at most
`limit` rows in descending similarity order; every row comes from an eligible
candidate (different id, non-empty mainboard) and reports the Jaccard ratio
times 100 rounded to one decimal; and when all eligible candidates fit within
`limit`, every one of them — including zero-similarity ones — appears. -/
theorem similar_decks_spec (deck : Deck) (all_decks : List Deck) (limit : Nat)
    (h : deck.mainboard ≠ []) :
    (similar_decks deck all_decks limit).length ≤ limit
    ∧ (similar_decks deck all_decks limit).Pairwise
        (fun a b => b.similarity ≤ a.similarity)
    ∧ (∀ e ∈ similar_decks deck all_decks limit,
        ∃ d ∈ all_decks, d.deck_id ≠ deck.deck_id ∧ card_names d.mainboard ≠ []
          ∧ e = mkSimEntry (jaccard deck d) d)
    ∧ ((all_decks.filter (sim_eligible deck)).length ≤ limit →
        ∀ d ∈ all_decks, d.deck_id ≠ deck.deck_id → card_names d.mainboard ≠ [] →
          mkSimEntry (jaccard deck d) d ∈ similar_decks deck all_decks limit) := by
  have hne : (card_names deck.mainboard).isEmpty = false := by
    cases hmb : deck.mainboard with
    | nil => exact absurd hmb h
    | cons qc tl =>
      unfold card_names
      rfl
  have hopen : similar_decks deck all_decks limit
      = ((((all_decks.filter (sim_eligible deck)).map
            (fun d => (jaccard deck d, d))).insertionSort
          (fun a b => b.1 ≤ a.1)).take limit).map
        (fun sd => mkSimEntry sd.1 sd.2) := by
    unfold similar_decks
    rw [if_neg (by rw [hne]; exact Bool.false_ne_true)]
  refine ⟨?_, ?_, ?_, ?_⟩
  · rw [hopen, List.length_map, List.length_take]
    exact min_le_left _ _
  · rw [hopen, List.pairwise_map]
    apply List.Pairwise.sublist (List.take_sublist _ _)
    haveI : IsTotal (ℚ × Deck) (fun a b : ℚ × Deck => b.1 ≤ a.1) :=
      ⟨fun a b => le_total b.1 a.1⟩
    haveI : IsTrans (ℚ × Deck) (fun a b : ℚ × Deck => b.1 ≤ a.1) :=
      ⟨fun _ _ _ hab hbc => le_trans hbc hab⟩
    have hsorted := List.sorted_insertionSort (fun a b : ℚ × Deck => b.1 ≤ a.1)
      ((all_decks.filter (sim_eligible deck)).map (fun d => (jaccard deck d, d)))
    refine hsorted.imp ?_
    intro a b hab
    show round1 (b.1 * 100) ≤ round1 (a.1 * 100)
    exact round1_mono (mul_le_mul_of_nonneg_right hab (by norm_num))
  · intro e he
    rw [hopen] at he
    obtain ⟨sd, hsd, hsde⟩ := List.mem_map.1 he
    have hsd2 := List.mem_of_mem_take hsd
    have hsd3 : sd ∈ (all_decks.filter (sim_eligible deck)).map
        (fun d => (jaccard deck d, d)) := (List.mem_insertionSort _).1 hsd2
    obtain ⟨d, hd, hds⟩ := List.mem_map.1 hsd3
    have hdin := List.mem_of_mem_filter hd
    have helig := List.of_mem_filter hd
    unfold sim_eligible at helig
    simp only [Bool.and_eq_true, decide_eq_true_eq, Bool.not_eq_eq_eq_not,
      Bool.not_true] at helig
    refine ⟨d, hdin, helig.1, ?_, ?_⟩
    · intro hc
      rw [hc] at helig
      exact absurd helig.2 (by simp)
    · rw [← hsde, ← hds]
  · intro hlen d hd hid hmb
    have helig : sim_eligible deck d = true := by
      unfold sim_eligible
      simp only [Bool.and_eq_true, decide_eq_true_eq]
      refine ⟨hid, ?_⟩
      cases hcn : card_names d.mainboard with
      | nil => exact absurd hcn hmb
      | cons x xs => rfl
    have hdf : d ∈ all_decks.filter (sim_eligible deck) :=
      List.mem_filter.2 ⟨hd, helig⟩
    have hpair : (jaccard deck d, d) ∈ (all_decks.filter (sim_eligible deck)).map
        (fun d2 => (jaccard deck d2, d2)) := List.mem_map_of_mem _ hdf
    have hsortlen : (((all_decks.filter (sim_eligible deck)).map
          (fun d2 => (jaccard deck d2, d2))).insertionSort
        (fun a b => b.1 ≤ a.1)).length ≤ limit := by
      rw [List.length_insertionSort, List.length_map]
      exact hlen
    rw [hopen, List.take_of_length_le hsortlen]
    exact List.mem_map.2 ⟨(jaccard deck d, d), (List.mem_insertionSort _).2 hpair, rfl⟩

def cexC5ref : Deck :=
  ⟨21, 0, "MO", "n", "p", "e", "01/01/25", "1", 0,
    [(4, "Bolt"), (3, "Opt")], [], [], none⟩

def cexC5cand : Deck :=
  ⟨22, 0, "MO", "n", "q", "e", "01/01/25", "2", 0,
    [(2, "Opt"), (1, "Ponder")], [], [], none⟩

def cexC5pool : List Deck := [cexC5cand]

theorem similar_decks_spec_witness :
    mkSimEntry (jaccard cexC5ref cexC5cand) cexC5cand
      ∈ similar_decks cexC5ref cexC5pool 3 :=
  (similar_decks_spec cexC5ref cexC5pool 3 (by decide)).2.2.2 (by decide)
    cexC5cand (by decide) (by decide) (by decide)

/-! ### C7: synergy mining (`card_synergy`) and the report (`analyze`) -/

/-- The per-deck `cards` set of the synergy loop (basic lands always skipped,
broader land list skipped under `ignore_lands`). -/
def clean_names (il : Bool) (d : Deck) : List String :=
  firstOccur ((kept_main il d).map (fun qc => qc.2))

/-- `sorted(cards)`. -/
def sorted_clean_names (il : Bool) (d : Deck) : List String :=
  (clean_names il d).insertionSort (fun a b => a ≤ b)

/-- All index pairs `i < j` of a list, as the double loop enumerates them. -/
def pairsOf : List String → List (String × String)
  | [] => []
  | a :: rest => rest.map (fun b => (a, b)) ++ pairsOf rest

/-- The pairs one deck contributes to `pair_counts`. -/
def deck_pairs (il : Bool) (d : Deck) : List (String × String) :=
  pairsOf (sorted_clean_names il d)

/-- The keys of the `pair_counts` dict, in first-insertion order. -/
def pair_keys (decks : List Deck) (il : Bool) : List (String × String) :=
  firstOccur (decks.flatMap (deck_pairs il))

/-- `pair_counts[p]`: one increment per deck contributing `p`. -/
def pair_count (decks : List Deck) (il : Bool) (p : String × String) : Nat :=
  (decks.map (fun d => (deck_pairs il d).countP (fun q => decide (q = p)))).sum

/-- One output row of `card_synergy`. -/
structure SynergyEntry where
  card_a : String
  card_b : String
  decks : Nat
deriving DecidableEq

/-- `card_synergy`: sort the pair dict by descending count (stably), keep the
pairs above threshold, truncate, and emit rows. -/
def card_synergy (decks : List Deck) (min_decks top_n : Nat) (il : Bool) :
    List SynergyEntry :=
  ((((pair_keys decks il).insertionSort
        (fun a b => pair_count decks il b ≤ pair_count decks il a)).filter
      (fun p => decide (min_decks ≤ pair_count decks il p))).take top_n).map
    (fun p => ⟨p.1, p.2, pair_count decks il p⟩)

theorem sorted_clean_names_lt (il : Bool) (d : Deck) :
    (sorted_clean_names il d).Pairwise (· < ·) := by
  have hsorted : (sorted_clean_names il d).Pairwise (· ≤ ·) :=
    List.sorted_insertionSort (· ≤ ·) (clean_names il d)
  have hnodup : (sorted_clean_names il d).Nodup :=
    ((List.perm_insertionSort (fun a b : String => a ≤ b)
      (clean_names il d)).symm).nodup (nodup_firstOccur _)
  refine (hsorted.and hnodup).imp ?_
  intro a b hab
  exact lt_of_le_of_ne hab.1 hab.2

theorem pairsOf_mem {l : List String} (hl : l.Pairwise (· < ·))
    (x y : String) :
    (x, y) ∈ pairsOf l ↔ x ∈ l ∧ y ∈ l ∧ x < y := by
  induction l with
  | nil => simp [pairsOf]
  | cons a rest ih =>
    have hrest := List.Pairwise.of_cons hl
    have hhead : ∀ b ∈ rest, a < b := fun b hb => List.rel_of_pairwise_cons hl hb
    simp only [pairsOf, List.mem_append, List.mem_map, List.mem_cons]
    constructor
    · rintro (⟨b, hb, hba⟩ | hp)
      · simp only [Prod.mk.injEq] at hba
        obtain ⟨ha, hb2⟩ := hba
        subst ha
        subst hb2
        exact ⟨Or.inl rfl, Or.inr hb, hhead b hb⟩
      · obtain ⟨hx, hy, hxy⟩ := (ih hrest).1 hp
        exact ⟨Or.inr hx, Or.inr hy, hxy⟩
    · rintro ⟨hx | hx, hy | hy, hxy⟩
      · exact absurd hxy (by rw [hx, hy]; exact lt_irrefl _)
      · exact Or.inl ⟨y, hy, by rw [hx]⟩
      · exact absurd (lt_trans (hhead x hx) hxy) (by rw [hy]; exact lt_irrefl _)
      · exact Or.inr ((ih hrest).2 ⟨hx, hy, hxy⟩)

theorem pairsOf_fst_mem {l : List String} {p : String × String}
    (hp : p ∈ pairsOf l) : p.1 ∈ l := by
  induction l with
  | nil => simp [pairsOf] at hp
  | cons a rest ih =>
    simp only [pairsOf, List.mem_append, List.mem_map] at hp
    rcases hp with ⟨b, _, hba⟩ | hp
    · rw [← hba]
      exact List.mem_cons_self _ _
    · exact List.mem_cons_of_mem _ (ih hp)

theorem pairsOf_nodup {l : List String} (hl : l.Pairwise (· < ·)) :
    (pairsOf l).Nodup := by
  induction l with
  | nil => simp [pairsOf]
  | cons a rest ih =>
    have hrest := List.Pairwise.of_cons hl
    have hhead : ∀ b ∈ rest, a < b := fun b hb => List.rel_of_pairwise_cons hl hb
    have hrnodup : rest.Nodup := hrest.imp ne_of_lt
    refine List.Nodup.append ?_ (ih hrest) ?_
    · exact hrnodup.map (fun b1 b2 h => by
        have := congrArg Prod.snd h
        simpa using this)
    · intro p hp1 hp2
      have h1 : p.1 = a := by
        obtain ⟨b, _, hba⟩ := List.mem_map.1 hp1
        rw [← hba]
      have h2 : p.1 ∈ rest := pairsOf_fst_mem hp2
      rw [h1] at h2
      exact absurd rfl (ne_of_lt (hhead a h2))

theorem pair_count_eq_countP (decks : List Deck) (il : Bool)
    (p : String × String) :
    pair_count decks il p
      = decks.countP (fun d => decide (p ∈ deck_pairs il d)) := by
  induction decks with
  | nil => rfl
  | cons d rest ih =>
    unfold pair_count at ih ⊢
    simp only [List.map_cons, List.sum_cons, List.countP_cons]
    have hcnt : (deck_pairs il d).countP (fun q => decide (q = p))
        = if p ∈ deck_pairs il d then 1 else 0 := by
      by_cases hmem : p ∈ deck_pairs il d
      · rw [if_pos hmem]
        exact List.count_eq_one_of_mem
          (pairsOf_nodup (sorted_clean_names_lt il d)) hmem
      · rw [if_neg hmem]
        rw [List.countP_eq_zero]
        intro q hq
        simp only [decide_eq_true_eq]
        intro hqp
        exact hmem (hqp ▸ hq)
    rw [hcnt, ih]
    by_cases hmem : p ∈ deck_pairs il d
    · simp [hmem]
      omega
    · simp [hmem]

theorem card_synergy_spec (decks : List Deck) (m n : Nat) (il : Bool) :
    (card_synergy decks m n il).length ≤ n
    ∧ (card_synergy decks m n il).Pairwise (fun a b => b.decks ≤ a.decks)
    ∧ ∀ e ∈ card_synergy decks m n il,
        m ≤ e.decks ∧ e.card_a < e.card_b
        ∧ e.decks = decks.countP (fun d =>
            decide (e.card_a ∈ clean_names il d ∧ e.card_b ∈ clean_names il d)) := by
  refine ⟨?_, ?_, ?_⟩
  · unfold card_synergy
    rw [List.length_map, List.length_take]
    exact min_le_left _ _
  · unfold card_synergy
    rw [List.pairwise_map]
    apply List.Pairwise.sublist (List.take_sublist _ _)
    apply List.Pairwise.filter
    haveI : IsTotal (String × String)
        (fun a b => pair_count decks il b ≤ pair_count decks il a) :=
      ⟨fun a b => le_total _ _⟩
    haveI : IsTrans (String × String)
        (fun a b => pair_count decks il b ≤ pair_count decks il a) :=
      ⟨fun _ _ _ hab hbc => le_trans hbc hab⟩
    exact List.sorted_insertionSort _ _
  · intro e he
    unfold card_synergy at he
    obtain ⟨p, hp, hpe⟩ := List.mem_map.1 he
    obtain ⟨a, b⟩ := p
    have hp2 := List.mem_of_mem_take hp
    have hpfil := List.of_mem_filter hp2
    simp only [decide_eq_true_eq] at hpfil
    have hp3 := List.mem_of_mem_filter hp2
    have hp4 : (a, b) ∈ pair_keys decks il := (List.mem_insertionSort _).1 hp3
    obtain ⟨d0, hd0, hpd0⟩ := List.mem_flatMap.1 (mem_firstOccur.1 hp4)
    have hlt : a < b :=
      ((pairsOf_mem (sorted_clean_names_lt il d0) a b).1 hpd0).2.2
    refine ⟨?_, ?_, ?_⟩
    · rw [← hpe]
      exact hpfil
    · rw [← hpe]
      exact hlt
    · rw [← hpe]
      show pair_count decks il (a, b) = _
      rw [pair_count_eq_countP]
      apply List.countP_congr
      intro d _
      simp only [decide_eq_true_eq]
      unfold deck_pairs
      rw [pairsOf_mem (sorted_clean_names_lt il d) a b]
      unfold sorted_clean_names
      rw [List.mem_insertionSort, List.mem_insertionSort]
      constructor
      · rintro ⟨h1, h2, _⟩
        exact ⟨h1, h2⟩
      · rintro ⟨h1, h2⟩
        exact ⟨h1, h2, hlt⟩

/-- The `summary` block of the report (`deck_diversity`). -/
structure Summary where
  total_decks : Nat
  unique_commanders : Nat
  unique_archetypes : Nat
deriving DecidableEq

/-- `deck_diversity`: total decks, distinct commander combos (decks with
commanders only), distinct archetypes. -/
def deck_diversity (decks : List Deck) : Summary :=
  ⟨decks.length,
   (firstOccur ((decks.filter (fun d => !d.commanders.isEmpty)).map
     (fun d => String.intercalate " / "
       (d.commanders.insertionSort (fun a b => a ≤ b))))).length,
   (firstOccur (decks.map archetypeKey)).length⟩

/-- The full report produced by `analyze`. -/
structure Report where
  summary : Summary
  commander_distribution : List DistEntry
  archetype_distribution : List DistEntry
  top_cards_main : List CardEntry
  placement_weighted : Bool
  ignore_lands : Bool
  card_synergy : List SynergyEntry
deriving DecidableEq

/-- `analyze`: compose the report; synergy only when
`include_card_synergy and len(decks) >= 3`, with `min_decks=2`, `top_n=30`. -/
def analyze (decks : List Deck)
    (placement_weighted ignore_lands include_card_synergy : Bool) : Report :=
  { summary := deck_diversity decks
    commander_distribution := commander_distribution decks placement_weighted
    archetype_distribution := archetype_distribution decks placement_weighted
    top_cards_main := top_cards_main decks placement_weighted ignore_lands
    placement_weighted := placement_weighted
    ignore_lands := ignore_lands
    card_synergy :=
      if include_card_synergy && decide (3 ≤ decks.length) then
        card_synergy decks 2 30 ignore_lands
      else [] }

/-- C7: the report's `card_synergy` is empty when there are fewer than 3
decks; otherwise it holds at most 30 pairs, each counted in at least 2 decks
(`decks` being exactly the number of decks containing both cards), ordered by
descending co-occurrence count. -/
theorem analyze_card_synergy_spec (decks : List Deck) (pw il ics : Bool) :
    (decks.length < 3 → (analyze decks pw il ics).card_synergy = [])
    ∧ (analyze decks pw il ics).card_synergy.length ≤ 30
    ∧ (analyze decks pw il ics).card_synergy.Pairwise
        (fun a b => b.decks ≤ a.decks)
    ∧ ∀ e ∈ (analyze decks pw il ics).card_synergy,
        2 ≤ e.decks ∧ e.card_a < e.card_b
        ∧ e.decks = decks.countP (fun d =>
            decide (e.card_a ∈ clean_names il d ∧ e.card_b ∈ clean_names il d)) := by
  have hfield : (analyze decks pw il ics).card_synergy
      = if ics && decide (3 ≤ decks.length) then card_synergy decks 2 30 il
        else [] := rfl
  cases hb : (ics && decide (3 ≤ decks.length)) with
  | false =>
    rw [hfield, hb]
    simp
  | true =>
    rw [hfield, hb, if_pos rfl]
    have hspec := card_synergy_spec decks 2 30 il
    refine ⟨?_, hspec.1, hspec.2.1, hspec.2.2⟩
    intro hlen
    have h3 := hb
    rw [Bool.and_eq_true] at h3
    have h4 := h3.2
    simp only [decide_eq_true_eq] at h4
    omega

def cexC7decks : List Deck :=
  [⟨31, 0, "MO", "n", "p", "e", "01/01/25", "1", 0, [(4, "Bolt")], [], [], none⟩,
   ⟨32, 0, "MO", "n", "q", "e", "01/01/25", "2", 0, [(4, "Bolt")], [], [], none⟩]

theorem analyze_card_synergy_spec_witness :
    (analyze cexC7decks false false true).card_synergy = [] :=
  (analyze_card_synergy_spec cexC7decks false false true).1 (by decide)

/-! ### C4/C8: per-deck composition analysis (`deck_analysis`) -/

/-- External card metadata; every field may be absent (`meta.get` → `None`). -/
structure CardMeta where
  mana_cost : Option String
  cmc : Option ℚ
  type_line : Option String
  colors : Option (List String)
  color_identity : Option (List String)
deriving DecidableEq

/-- The card-metadata lookup table passed to the analysis. -/
abbrev MetaTable := List (String × CardMeta)

/-- Python's substring test `pat in hay`, on the underlying characters. -/
def strContains (hay pat : String) : Bool :=
  hay.data.tails.any (fun t => pat.data.isPrefixOf t)

/-- `_TYPE_ORDER`. -/
def TYPE_ORDER : List String :=
  ["Land", "Creature", "Instant", "Sorcery", "Enchantment", "Artifact",
   "Planeswalker"]

/-- `_primary_type`: first type whose uppercase name occurs in the uppercased
type line, else `"Other"`. -/
def primary_type (type_line : String) : String :=
  match TYPE_ORDER.find? (fun t => strContains type_line.toUpper t.toUpper) with
  | some t => t
  | none => "Other"

/-- `_COLOR_ORDER`, which also lists the keys of `_COLOR_LABELS`. -/
def COLOR_ORDER : List String := ["W", "U", "B", "R", "G", "C", "M"]

/-- Python `a or b` for optional lists: `None` and `[]` are falsy. -/
def orList (a : Option (List String)) (b : List String) : List String :=
  match a with
  | none => b
  | some [] => b
  | some (c :: cs) => c :: cs

/-- `_card_color_group`: `colors or color_identity or []`, bucketed into a
single letter (`C` empty or unknown, `M` multicolor). -/
def card_color_group (m : CardMeta) : String :=
  match orList m.colors (orList m.color_identity []) with
  | [] => "C"
  | [c] => if c ∈ COLOR_ORDER then c else "C"
  | _ :: _ :: _ => "M"

/-- `int(x)`: truncation toward zero. -/
def int_trunc (q : ℚ) : Int :=
  if q < 0 then -(⌊-q⌋) else ⌊q⌋

/-- `m[k] = m.get(k, 0) + q` on a counting dict. -/
def bumpCount {κ : Type} [DecidableEq κ] (m : List (κ × Nat)) (k : κ)
    (q : Nat) : List (κ × Nat) :=
  match m with
  | [] => [(k, q)]
  | (k2, v) :: rest =>
    if k2 = k then (k2, v + q) :: rest else (k2, v) :: bumpCount rest k q

/-- `m.setdefault(k, []).append(v)` on a grouping dict. -/
def addToGroup {κ : Type} [DecidableEq κ] (m : List (κ × List (Nat × String)))
    (k : κ) (v : Nat × String) : List (κ × List (Nat × String)) :=
  match m with
  | [] => [(k, [v])]
  | (k2, vs) :: rest =>
    if k2 = k then (k2, vs ++ [v]) :: rest else (k2, vs) :: addToGroup rest k v

/-- `if k in m: m[k] += q` on a fixed-key counting dict. -/
def bumpExisting (m : List (String × Nat)) (k : String) (q : Nat) :
    List (String × Nat) :=
  m.map (fun kv => if kv.1 = k then (kv.1, kv.2 + q) else kv)

/-- The compact per-card metadata side table entry. -/
structure CardMetaOut where
  mana_cost : String
  cmc : ℚ
  type_line : String
  colors : List String
deriving DecidableEq

def metaOut (m : CardMeta) : CardMetaOut :=
  ⟨m.mana_cost.getD "", m.cmc.getD 0, m.type_line.getD "", m.colors.getD []⟩

/-- `if card not in card_meta_out and meta: card_meta_out[card] = …`. -/
def insertNewMeta (m : List (String × CardMetaOut)) (k : String)
    (v : CardMetaOut) : List (String × CardMetaOut) :=
  if m.any (fun kv => decide (kv.1 = k)) then m else m ++ [(k, v)]

/-- The accumulators of the mainboard loop of `deck_analysis`. -/
structure MainState where
  mana_curve : List (Int × Nat)
  color_counts : List (String × Nat)
  lands : Nat
  nonlands : Nat
  type_distribution : List (String × Nat)
  grouped_by_type : List (String × List (Nat × String))
  grouped_by_cmc : List (Int × List (Nat × String))
  grouped_by_color : List (String × List (Nat × String))
  card_meta : List (String × CardMetaOut)
deriving DecidableEq

def initMainState : MainState :=
  ⟨[], [("W", 0), ("U", 0), ("B", 0), ("R", 0), ("G", 0), ("C", 0)],
   0, 0, [], [], [], [], []⟩

/-- One iteration of the mainboard loop. -/
def mainStep (mt : MetaTable) (st : MainState) (qc : Nat × String) : MainState :=
  let qty := qc.1
  let card := qc.2
  let meta := mt.lookup card
  let is_land : Bool := match meta with
    | some m => strContains (m.type_line.getD "").toUpper "LAND"
    | none => is_land_card card
  let primary : String := match meta with
    | some m => primary_type (m.type_line.getD "")
    | none => if is_land then "Land" else "Other"
  let cmc_val : Int := match meta with
    | some m => int_trunc (m.cmc.getD 0)
    | none => 0
  let color_group : String :=
    if is_land then "Land"
    else match meta with
      | some m => card_color_group m
      | none => "C"
  let colors : List String := match meta with
    | some m => orList m.color_identity (orList m.colors [])
    | none => []
  { mana_curve :=
      if is_land then st.mana_curve
      else match meta with
        | some m => match m.cmc with
          | some c => bumpCount st.mana_curve (int_trunc c) qty
          | none => st.mana_curve
        | none => st.mana_curve
    color_counts :=
      let cc := colors.foldl (fun acc c => bumpExisting acc c qty) st.color_counts
      if colors = [] ∧ meta.isSome then bumpExisting cc "C" qty else cc
    lands := if is_land then st.lands + qty else st.lands
    nonlands := if is_land then st.nonlands else st.nonlands + qty
    type_distribution := bumpCount st.type_distribution primary qty
    grouped_by_type := addToGroup st.grouped_by_type primary (qty, card)
    grouped_by_cmc := addToGroup st.grouped_by_cmc cmc_val (qty, card)
    grouped_by_color := addToGroup st.grouped_by_color color_group (qty, card)
    card_meta := match meta with
      | some m => insertNewMeta st.card_meta card (metaOut m)
      | none => st.card_meta }

/-- The accumulators of the sideboard loop (`card_meta` is shared with the
mainboard loop). -/
structure SideState where
  grouped_by_type : List (String × List (Nat × String))
  grouped_by_cmc : List (Int × List (Nat × String))
  grouped_by_color : List (String × List (Nat × String))
  card_meta : List (String × CardMetaOut)
deriving DecidableEq

/-- One iteration of the sideboard loop. -/
def sideStep (mt : MetaTable) (st : SideState) (qc : Nat × String) : SideState :=
  let qty := qc.1
  let card := qc.2
  let meta := mt.lookup card
  let is_land : Bool := match meta with
    | some m => strContains (m.type_line.getD "").toUpper "LAND"
    | none => is_land_card card
  let primary : String := match meta with
    | some m => primary_type (m.type_line.getD "")
    | none => if is_land then "Land" else "Other"
  let cmc_val : Int := match meta with
    | some m => int_trunc (m.cmc.getD 0)
    | none => 0
  let color_group : String :=
    if is_land then "Land"
    else match meta with
      | some m => card_color_group m
      | none => "C"
  { grouped_by_type := addToGroup st.grouped_by_type primary (qty, card)
    grouped_by_cmc := addToGroup st.grouped_by_cmc cmc_val (qty, card)
    grouped_by_color := addToGroup st.grouped_by_color color_group (qty, card)
    card_meta := match meta with
      | some m => insertNewMeta st.card_meta card (metaOut m)
      | none => st.card_meta }

/-- Sort key `( _TYPE_ORDER.index(t) if t in _TYPE_ORDER else 99, t)`. -/
def typeSortKey (t : String) : Nat :=
  if t ∈ TYPE_ORDER then TYPE_ORDER.indexOf t else 99

/-- Sort key over `color_key_order = _COLOR_ORDER + ["Land"]`. -/
def colorSortKey (c : String) : Nat :=
  if c ∈ COLOR_ORDER ++ ["Land"] then (COLOR_ORDER ++ ["Land"]).indexOf c
  else 99

def sortGroupsByType (g : List (String × List (Nat × String))) :
    List (String × List (Nat × String)) :=
  g.insertionSort (fun a b =>
    typeSortKey a.1 < typeSortKey b.1
    ∨ (typeSortKey a.1 = typeSortKey b.1 ∧ a.1 ≤ b.1))

def sortGroupsByColor (g : List (String × List (Nat × String))) :
    List (String × List (Nat × String)) :=
  g.insertionSort (fun a b =>
    colorSortKey a.1 < colorSortKey b.1
    ∨ (colorSortKey a.1 = colorSortKey b.1 ∧ a.1 ≤ b.1))

/-- The value returned by `deck_analysis` (the `lands_distribution` dict is
flattened into its two entries). -/
structure DeckAnalysis where
  mana_curve : List (Int × Nat)
  color_distribution : List (String × ℚ)
  lands : Nat
  nonlands : Nat
  type_distribution : List (String × Nat)
  grouped_by_type : List (String × List (Nat × String))
  grouped_by_type_sideboard : List (String × List (Nat × String))
  grouped_by_cmc : List (String × List (Nat × String))
  grouped_by_cmc_sideboard : List (String × List (Nat × String))
  grouped_by_color : List (String × List (Nat × String))
  grouped_by_color_sideboard : List (String × List (Nat × String))
  card_meta : List (String × CardMetaOut)
deriving DecidableEq

/-- `deck_analysis`. -/
def deck_analysis (deck : Deck) (mt : MetaTable) : DeckAnalysis :=
  let ms := deck.mainboard.foldl (mainStep mt) initMainState
  let ss := deck.sideboard.foldl (sideStep mt) ⟨[], [], [], ms.card_meta⟩
  let total := (ms.color_counts.map Prod.snd).sum
  { mana_curve := ms.mana_curve.insertionSort (fun a b => a.1 ≤ b.1)
    color_distribution := ms.color_counts.map (fun kv =>
      (kv.1, if total = 0 then 0 else round1 (100 * (kv.2 : ℚ) / (total : ℚ))))
    lands := ms.lands
    nonlands := ms.nonlands
    type_distribution := ms.type_distribution
    grouped_by_type := sortGroupsByType ms.grouped_by_type
    grouped_by_type_sideboard := sortGroupsByType ss.grouped_by_type
    grouped_by_cmc := (ms.grouped_by_cmc.insertionSort
      (fun a b => a.1 ≤ b.1)).map (fun kv => (toString kv.1, kv.2))
    grouped_by_cmc_sideboard := (ss.grouped_by_cmc.insertionSort
      (fun a b => a.1 ≤ b.1)).map (fun kv => (toString kv.1, kv.2))
    grouped_by_color := sortGroupsByColor ms.grouped_by_color
    grouped_by_color_sideboard := sortGroupsByColor ss.grouped_by_color
    card_meta := ss.card_meta }

/-! ### C4: the archetype aggregate (spec-modelled) -/

/-- `m.get(k, d0)` on an association list. -/
def lookupD {κ β : Type} [DecidableEq κ] (m : List (κ × β)) (k : κ) (d0 : β) :
    β :=
  match m.find? (fun kv => decide (kv.1 = k)) with
  | some kv => kv.2
  | none => d0

/-- The aggregate composition report: averaged counts. -/
structure AggregateAnalysis where
  mana_curve : List (Int × ℚ)
  color_distribution : List (String × ℚ)
  lands : ℚ
  nonlands : ℚ
  type_distribution : List (String × ℚ)
deriving DecidableEq

/-- Modelled from the spec: `archetype_aggregate_analysis` is not in `src/`
(only `tests/test_analyzer.py` imports it from the analyzer module). Spec
§4.3: "When computing an archetype aggregate (multiple decks), all counts are
**averaged per deck** (sum divided by deck count), not summed", over the
mana curve, color distribution, lands/nonlands split and type distribution of
`deck_analysis`. Each reported value is the per-deck sum divided by the number
of decks. -/
def archetype_aggregate_analysis (decks : List Deck) (mt : MetaTable) :
    AggregateAnalysis :=
  { mana_curve :=
      (firstOccur (decks.flatMap
          (fun d => (deck_analysis d mt).mana_curve.map Prod.fst))).map
        (fun k => (k,
          (decks.map (fun d =>
            ((lookupD (deck_analysis d mt).mana_curve k 0 : Nat) : ℚ))).sum
            / (decks.length : ℚ)))
    color_distribution :=
      (firstOccur (decks.flatMap
          (fun d => (deck_analysis d mt).color_distribution.map Prod.fst))).map
        (fun k => (k,
          (decks.map (fun d =>
            lookupD (deck_analysis d mt).color_distribution k 0)).sum
            / (decks.length : ℚ)))
    lands :=
      (decks.map (fun d => ((deck_analysis d mt).lands : ℚ))).sum
        / (decks.length : ℚ)
    nonlands :=
      (decks.map (fun d => ((deck_analysis d mt).nonlands : ℚ))).sum
        / (decks.length : ℚ)
    type_distribution :=
      (firstOccur (decks.flatMap
          (fun d => (deck_analysis d mt).type_distribution.map Prod.fst))).map
        (fun k => (k,
          (decks.map (fun d =>
            ((lookupD (deck_analysis d mt).type_distribution k 0 : Nat) : ℚ))).sum
            / (decks.length : ℚ))) }

/-- C4: every count the archetype aggregate reports — mana curve, color
distribution, lands/nonlands, type distribution — is the per-deck sum of the
corresponding `deck_analysis` count divided by the number of decks. -/
theorem archetype_aggregate_analysis_spec (decks : List Deck) (mt : MetaTable)
    (_h : decks ≠ []) :
    (archetype_aggregate_analysis decks mt).lands
        = (decks.map (fun d => ((deck_analysis d mt).lands : ℚ))).sum
          / (decks.length : ℚ)
    ∧ (archetype_aggregate_analysis decks mt).nonlands
        = (decks.map (fun d => ((deck_analysis d mt).nonlands : ℚ))).sum
          / (decks.length : ℚ)
    ∧ (∀ kv ∈ (archetype_aggregate_analysis decks mt).mana_curve,
        kv.2 = (decks.map (fun d =>
            ((lookupD (deck_analysis d mt).mana_curve kv.1 0 : Nat) : ℚ))).sum
          / (decks.length : ℚ))
    ∧ (∀ kv ∈ (archetype_aggregate_analysis decks mt).color_distribution,
        kv.2 = (decks.map (fun d =>
            lookupD (deck_analysis d mt).color_distribution kv.1 0)).sum
          / (decks.length : ℚ))
    ∧ (∀ kv ∈ (archetype_aggregate_analysis decks mt).type_distribution,
        kv.2 = (decks.map (fun d =>
            ((lookupD (deck_analysis d mt).type_distribution kv.1 0 : Nat) : ℚ))).sum
          / (decks.length : ℚ)) := by
  refine ⟨rfl, rfl, ?_, ?_, ?_⟩
  all_goals
    intro kv hkv
    obtain ⟨k, _, hk⟩ := List.mem_map.1 hkv
    rw [← hk]

def cexC4deck : Deck :=
  ⟨41, 0, "MO", "n", "p", "e", "01/01/25", "1", 0,
    [(4, "Bolt"), (20, "Mountain")], [], [], none⟩

def cexC4meta : MetaTable :=
  [("Bolt", ⟨some "{R}", some 1, some "Instant", some ["R"], some ["R"]⟩),
   ("Mountain", ⟨some "", some 0, some "Basic Land", some [], some []⟩)]

theorem archetype_aggregate_analysis_spec_witness :
    (archetype_aggregate_analysis [cexC4deck] cexC4meta).lands
      = ([cexC4deck].map (fun d =>
          ((deck_analysis d cexC4meta).lands : ℚ))).sum
        / (([cexC4deck] : List Deck).length : ℚ) :=
  (archetype_aggregate_analysis_spec [cexC4deck] cexC4meta (by decide)).1

/-! ### C8: totality on empty input and guarded divisions -/

/-- A deck with empty card lists. -/
def emptyDeck : Deck :=
  ⟨0, 0, "", "", "", "", "", "", 0, [], [], [], none⟩

/-- The zero-valued analysis of a deck with empty card lists. -/
def emptyAnalysis : DeckAnalysis :=
  ⟨[], [("W", 0), ("U", 0), ("B", 0), ("R", 0), ("G", 0), ("C", 0)],
   0, 0, [], [], [], [], [], [], [], []⟩

/-- C8: every core analysis function maps empty input to an empty or
zero-valued result, and the divisions of the percentage computations are
guarded: the distribution total is always positive, `top_cards_main` only
divides by the deck count when there is at least one deck, and the color
percentages are literally zero when the color-slot total is zero. -/
theorem core_totality_spec :
    (∀ pw, commander_distribution [] pw = [])
    ∧ (∀ pw, archetype_distribution [] pw = [])
    ∧ (∀ pw il, top_cards_main [] pw il = [])
    ∧ (∀ decks pw il, top_cards_main decks pw il ≠ [] → 0 < decks.length)
    ∧ (∀ norm, player_leaderboard [] norm = [])
    ∧ (∀ m n il, card_synergy [] m n il = [])
    ∧ (∀ d lim, similar_decks d [] lim = [])
    ∧ find_duplicate_decks [] = []
    ∧ (∀ mt, deck_analysis emptyDeck mt = emptyAnalysis)
    ∧ (∀ pw il ics, analyze [] pw il ics = ⟨⟨0, 0, 0⟩, [], [], [], pw, il, []⟩)
    ∧ (∀ pw decks, 0 < dist_total (dist_scores commanderKey pw decks))
    ∧ (∀ pw decks, 0 < dist_total (dist_scores archetypeKey pw decks))
    ∧ (∀ deck mt,
        (((deck.mainboard.foldl (mainStep mt) initMainState).color_counts.map
          Prod.snd).sum = 0) →
        ∀ kv ∈ (deck_analysis deck mt).color_distribution, kv.2 = 0) := by
  refine ⟨fun _ => rfl, fun _ => rfl, fun _ _ => rfl, ?_, fun _ => rfl,
    ?_, ?_, rfl, fun _ => rfl, ?_, dist_total_pos commanderKey,
    dist_total_pos archetypeKey, ?_⟩
  · intro decks pw il htc
    cases decks with
    | nil => exact absurd rfl htc
    | cons d rest => simp
  · intro m n il
    show ((((pair_keys [] il).insertionSort _).filter _).take n).map _ = []
    have hpk : pair_keys [] il = [] := rfl
    rw [hpk]
    simp
  · intro d lim
    unfold similar_decks
    split_ifs
    · rfl
    · simp
  · intro pw il ics
    cases ics <;> rfl
  · intro deck mt htotal
    intro kv hkv
    unfold deck_analysis at hkv
    simp only at hkv
    obtain ⟨cc, _, hcc⟩ := List.mem_map.1 hkv
    rw [← hcc]
    simp [htotal]

def cexC8decks : List Deck :=
  [⟨51, 0, "MO", "n", "p", "e", "01/01/25", "1", 0, [(4, "Bolt")], [], [], none⟩]

theorem core_totality_spec_witness : 0 < cexC8decks.length :=
  core_totality_spec.2.2.2.1 cexC8decks false false (List.cons_ne_nil _ _)
